import Mathlib

/-!
# flyctl: token debugging (`internal/command/tokens/debug.go`) and machine
destruction (`internal/command/machine/destroy.go`)

A shallow embedding of `printActions`, `printMacaroon`, `runDebug` and
`Destroy`.  Standard output and standard error are modelled as the list of
strings written to them, one list element per `Printf` call.  Values that come
from packages outside the repository (the `resset` action constants, the
macaroon container, the flaps client) are modelled explicitly and documented
where they are introduced.
-/

set_option autoImplicit false

namespace Flyctl

/-! ## Action masks (`resset.Action`) -/

/-- An action mask.  `resset.Action` is an unsigned machine integer used as a
bit set; only `&`, `|` and `==` are applied to it, none of which can overflow,
so it is embedded as `Nat` (every width is covered). -/
abbrev Action := Nat

/-- Modelled from the spec: the `resset` package is outside the repository; the
spec gives the closed ordered enumeration Read, Write, Create, Delete, Control
of one-bit flags.  `ActionRead` is the first bit. -/
def ActionRead : Action := 1

/-- Modelled from the spec: second flag of the enumeration (`resset` is outside
the repository). -/
def ActionWrite : Action := 2

/-- Modelled from the spec: third flag of the enumeration (`resset` is outside
the repository). -/
def ActionCreate : Action := 4

/-- Modelled from the spec: fourth flag of the enumeration (`resset` is outside
the repository). -/
def ActionDelete : Action := 8

/-- Modelled from the spec: fifth flag of the enumeration (`resset` is outside
the repository). -/
def ActionControl : Action := 16

/-- The slice `bits` of `printActions` (debug.go line 111). -/
def bits : List Action :=
  [ActionRead, ActionWrite, ActionCreate, ActionDelete, ActionControl]

/-- The map `bitmap` of `printActions` (debug.go lines 112-118), as an
association list. -/
def bitmap : List (Action × String) :=
  [(ActionRead, "read"), (ActionWrite, "write"), (ActionCreate, "create"),
   (ActionDelete, "delete"), (ActionControl, "control")]

/-- Indexing a Go `map[K]string`: the stored value, or the zero value `""`
when the key is absent. -/
def mapIndex (mp : List (Action × String)) (k : Action) : String :=
  match mp.find? (fun e => e.1 == k) with
  | some e => e.2
  | none => ""

/-- The accumulator `everything` after the loop of debug.go lines 120-123. -/
def everything : Action :=
  bits.foldl (fun acc b => acc ||| b) 0

/-- The slice `actions` after the loop of debug.go lines 133-139. -/
def collectActions (act : Action) : List String :=
  bits.foldl
    (fun actions b => if act &&& b = b then actions ++ [mapIndex bitmap b] else actions)
    []

/-- Go's `strings.Join`. -/
def stringsJoin (elems : List String) (sep : String) : String :=
  sep.intercalate elems

/-- The function `printActions` (debug.go lines 110-146). -/
def printActions (act : Action) : String :=
  if act &&& everything = everything then "everything"
  else if act = ActionRead then "read-only"
  else
    let actions := collectActions act
    match actions with
    | [a] => a
    | _ => stringsJoin actions ", "

/-! ### Reference label, following the specification's wording -/

/-- The union of all five actions (the spec's `FULL`). -/
def FULL : Action :=
  ActionRead ||| ActionWrite ||| ActionCreate ||| ActionDelete ||| ActionControl

/-- Membership of an action in a mask. -/
def hasAction (mask a : Action) : Bool := mask &&& a != 0

/-- The spec's `label`: "everything" for the full mask, "read-only" for
exactly Read, otherwise the names of the set actions in canonical order joined
with ", ". -/
def labelSpec (mask : Action) : String :=
  if mask = FULL then "everything"
  else if mask = ActionRead then "read-only"
  else
    ", ".intercalate
      ((if hasAction mask ActionRead then ["read"] else []) ++
       (if hasAction mask ActionWrite then ["write"] else []) ++
       (if hasAction mask ActionCreate then ["create"] else []) ++
       (if hasAction mask ActionDelete then ["delete"] else []) ++
       (if hasAction mask ActionControl then ["control"] else []))

/-- The 32 masks that can be built from the five actions: every union of a
subset of them. -/
def allMasks : List Action :=
  (bits.sublists).map (fun s => s.foldl (fun acc b => acc ||| b) 0)

/-! ## Name tables and `lookup` -/

/-- A Go `map[int64]string`, as an association list; the first entry with a
given key is the stored one. -/
abbrev NameTable := List (Int × String)

/-- The comma-ok index expression `v, ok := mp[k]`. -/
def NameTable.get? (mp : NameTable) (k : Int) : Option String :=
  (mp.find? (fun e => e.1 == k)).map (fun e => e.2)

/-- The set of keys of a table. -/
def NameTable.keys (mp : NameTable) : List Int := mp.map (fun e => e.1)

/-- The struct `mappings` (debug.go lines 44-46). -/
structure mappings where
  orgs : NameTable
  apps : NameTable

/-- The Go conversion `int64(x)` of a `uint64`: the value is reinterpreted in
two's complement, so values from `2^63` on become negative. -/
def toInt64 (x : Nat) : Int :=
  if x % 2 ^ 64 < 2 ^ 63 then ((x % 2 ^ 64 : Nat) : Int)
  else ((x % 2 ^ 64 : Nat) : Int) - 2 ^ 64

/-- The call `fmt.Sprintf("%d", x)` on an unsigned integer: its decimal form. -/
def sprintfD (x : Nat) : String := Nat.repr x

/-- The closure `lookup` of `printMacaroon` (debug.go lines 162-167). -/
def lookup (x : Nat) (mp : NameTable) : String :=
  match mp.get? (toInt64 x) with
  | some v => v
  | none => sprintfD x

/-! ## Tokens and caveats -/

/-- A caveat, as far as the type switch of `printMacaroon` tells caveats apart.
`Apps` holds the entries of the `resset.ResourceSet[uint64]` map.  For a caveat
of any other dynamic type, `typeName` is what the verb `%T` prints for it and
`fields` what `%+v` prints. -/
inductive Caveat where
  | Organization (ID : Nat) (Mask : Action)
  | Apps (Apps : List (Nat × Action))
  | Caveat3P (Location : String)
  | other (typeName : String) (fields : String)
  deriving DecidableEq, Repr

/-- A byte. -/
abbrev Byte := Fin 256

/-- The fields of `macaroon.Macaroon` that `printMacaroon` reads: `Location`,
`Nonce.KID` (a byte slice) and `UnsafeCaveats.Caveats`. -/
structure Macaroon where
  Location : String
  KID : List Byte
  Caveats : List Caveat
  deriving DecidableEq, Repr

/-- Modelled from the spec: `Macaroon.Add` belongs to the macaroon package,
outside the repository; the spec describes it as the container's explicit
append operation, which puts the caveat at the end of the caveat sequence. -/
def Macaroon.Add (m : Macaroon) (c : Caveat) : Macaroon :=
  { m with Caveats := m.Caveats ++ [c] }

/-- The map literal of debug.go lines 153-157, entries in source order. -/
def syntheticApps : List (Nat × Action) :=
  [(9091, ActionRead), (2004659, ActionRead ||| ActionWrite), (5392, ActionWrite)]

/-- The four caveats that debug.go lines 149-158 add to the token. -/
def syntheticCaveats : List Caveat :=
  [Caveat.Organization 9709 ActionRead,
   Caveat.Organization 9709 (ActionRead ||| ActionWrite),
   Caveat.Organization 9709 ActionWrite,
   Caveat.Apps syntheticApps]

/-- A token from location `loc` with an empty key identifier and no caveat. -/
def bareToken (loc : String) : Macaroon := ⟨loc, [], []⟩

/-- A decoder for examples: the token "bad" fails with "EOF", any other token
`t` decodes to `bareToken t`. -/
def decode4 (t : String) : Except String Macaroon :=
  if t = "bad" then Except.error "EOF" else Except.ok (bareToken t)

/-! ## Header -/

/-- The statement `if len(kid) > 6 { kid = kid[len(kid)-6:] }`
(debug.go lines 169-172). -/
def truncateKID (kid : List Byte) : List Byte :=
  if kid.length > 6 then kid.drop (kid.length - 6) else kid

/-- The verb `%x` applied to a byte slice: two lowercase hexadecimal digits
per byte, no separator. -/
def hexEncode (bs : List Byte) : String :=
  String.mk (bs.flatMap (fun b => [Nat.digitChar (b.val / 16), Nat.digitChar (b.val % 16)]))

/-- The bytes of a string of ASCII characters. -/
def asciiBytes (s : String) : List Byte :=
  s.toList.map (fun c => Fin.ofNat c.toNat)

/-- The line printed by `fmt.Printf("Token ...%x (from %s)\n", kid, m.Location)`
(debug.go line 174). -/
def headerLine (m : Macaroon) : String :=
  "Token ..." ++ hexEncode (truncateKID m.KID) ++ " (from " ++ m.Location ++ ")\n"

/-! ## The indentation closures and the caveat loop -/

/-- The mutable state captured by the closures of `printMacaroon`: the counter
`depth` and what has been written to standard output so far. -/
structure PState where
  depth : Int
  out : List String
  deriving DecidableEq, Repr

/-- The string `tabs` built by the loop of debug.go lines 186-190: one tab per
iteration, `depth` iterations (none when `depth` is not positive). -/
def tabs (depth : Int) : String :=
  (List.replicate depth.toNat "\t").foldl (fun acc t => acc ++ t) ""

/-- The closure `dprint` (debug.go lines 185-193); `text` is the format with
its arguments substituted. -/
def dprint (text : String) (s : PState) : PState :=
  { s with out := s.out ++ [tabs s.depth ++ text ++ "\n"] }

/-- The closure `dep` (debug.go lines 179-183). -/
def dep (f : PState → PState) (s : PState) : PState :=
  let s1 := { s with depth := s.depth + 1 }
  let s2 := f s1
  { s2 with depth := s2.depth - 1 }

/-- The environment of a rendering that the source leaves to packages outside
the repository: `rangeOrder` is the order in which `range` enumerates the
entries of a resource-set map (Go leaves it unspecified), and `authLocation`
is the constant `flyio.LocationAuthentication`. -/
structure Env where
  rangeOrder : List (Nat × Action) → List (Nat × Action)
  authLocation : String

/-- The type switch of debug.go lines 197-217. -/
def caveatSwitch (env : Env) (maps : mappings) (ocav : Caveat) (s : PState) : PState :=
  match ocav with
  | Caveat.Organization id mask =>
      let s := dprint ("* Exclusively for organization '" ++ lookup id maps.orgs ++ "'") s
      dep (dprint ("Allowed actions: " ++ printActions mask)) s
  | Caveat.Apps apps =>
      let s := dprint "* Exclusive for the following apps:" s
      (env.rangeOrder apps).foldl
        (fun s e =>
          dep (dprint ("For app '" ++ lookup e.1 maps.apps ++ "', allowed actions: " ++
            printActions e.2)) s)
        s
  | Caveat.Caveat3P loc =>
      if loc = env.authLocation then dprint "* Requires authentication to Fly.io" s else s
  | Caveat.other typeName fields => dprint ("cav: " ++ typeName ++ " " ++ fields) s

/-- The loop over `caveats` (debug.go lines 195-219). -/
def caveatLoop (env : Env) (maps : mappings) (caveats : List Caveat) (s : PState) : PState :=
  caveats.foldl (fun s ocav => dep (caveatSwitch env maps ocav) s) s

/-- What a call of `printMacaroon` leaves behind: the token the pointer `m`
refers to afterwards, the text written to standard output, the final value of
`depth`, and the returned error (`none` is `nil`). -/
structure PrintResult where
  mac : Macaroon
  out : List String
  depth : Int
  err : Option String
  deriving DecidableEq, Repr

/-- The function `printMacaroon` (debug.go lines 148-222). -/
def printMacaroon (env : Env) (maps : mappings) (m : Macaroon) : PrintResult :=
  let m := syntheticCaveats.foldl Macaroon.Add m
  let caveats := m.Caveats
  let s : PState := { depth := 0, out := [headerLine m, "Caveats in this token:\n"] }
  let s := caveatLoop env maps caveats s
  { mac := m, out := s.out, depth := s.depth, err := none }

/-! ### The block of lines of one caveat -/

/-- A line at nesting depth `d`: `d` tab characters, the text, a newline. -/
def indentLine (d : Nat) (text : String) : String :=
  String.mk (List.replicate d '\t') ++ text ++ "\n"

/-- The text of a caveat's own line, when it has one. -/
def ownLine (env : Env) (maps : mappings) : Caveat → Option String
  | Caveat.Organization id _ =>
      some ("* Exclusively for organization '" ++ lookup id maps.orgs ++ "'")
  | Caveat.Apps _ => some "* Exclusive for the following apps:"
  | Caveat.Caveat3P loc =>
      if loc = env.authLocation then some "* Requires authentication to Fly.io" else none
  | Caveat.other typeName fields => some ("cav: " ++ typeName ++ " " ++ fields)

/-- The text of one per-app line. -/
def appLine (maps : mappings) (e : Nat × Action) : String :=
  "For app '" ++ lookup e.1 maps.apps ++ "', allowed actions: " ++ printActions e.2

/-- The texts of the lines nested under a caveat's own line. -/
def nestedLines (env : Env) (maps : mappings) : Caveat → List String
  | Caveat.Organization _ mask => ["Allowed actions: " ++ printActions mask]
  | Caveat.Apps apps => (env.rangeOrder apps).map (appLine maps)
  | Caveat.Caveat3P _ => []
  | Caveat.other _ _ => []

/-- The block of a caveat: its own line at depth one, then its nested lines at
depth two. -/
def caveatBlock (env : Env) (maps : mappings) (c : Caveat) : List String :=
  (ownLine env maps c).toList.map (indentLine 1) ++
    (nestedLines env maps c).map (indentLine 2)

/-- The first character of a text, if any. -/
def firstChar (s : String) : Option Char := s.data.head?

/-! ## `runDebug` -/

/-- The loop of debug.go lines 76-83, started at index `i` with the slice
`macs` and the text written to standard error so far. -/
def decodeLoop {Tok : Type} (decode : Tok → Except String Macaroon) :
    Nat → List Tok → List Macaroon × List String → List Macaroon × List String
  | _, [], acc => acc
  | i, tok :: rest, (macs, errOut) =>
      match decode tok with
      | Except.error err =>
          decodeLoop decode (i + 1) rest
            (macs, errOut ++
              ["unable to decode token at position " ++ Nat.repr i ++ ": " ++ err ++ "\n"])
      | Except.ok m => decodeLoop decode (i + 1) rest (macs ++ [m], errOut)

/-- The loop of debug.go lines 90-92: the tokens as `printMacaroon` leaves
them, and the text written to standard output. -/
def printLoop (env : Env) (maps : mappings) (macs : List Macaroon) :
    List Macaroon × List String :=
  macs.foldl
    (fun acc mac =>
      let r := printMacaroon env maps mac
      (acc.1 ++ [r.mac], acc.2 ++ r.out))
    ([], [])

/-- What a call of `runDebug` leaves behind. -/
structure DebugResult where
  stderr : List String
  stdout : List String
  err : Option String
  deriving DecidableEq, Repr

/-- The function `runDebug` (debug.go lines 68-108).  The results of
`getTokens` and `retrieveMappings`, the decoder `macaroon.Decode`, the flag
`verbose` and the JSON encoder are inputs. -/
def runDebug {Tok : Type} (env : Env) (getTokens : Except String (List Tok))
    (decode : Tok → Except String Macaroon) (retrieveMappings : Except String mappings)
    (verbose : Bool) (encode : List Macaroon → Except String String) : DebugResult :=
  match getTokens with
  | Except.error err => { stderr := [], stdout := [], err := some err }
  | Except.ok toks =>
      let (macs, errOut) := decodeLoop decode 0 toks ([], [])
      match retrieveMappings with
      | Except.error err => { stderr := errOut, stdout := [], err := some err }
      | Except.ok maps =>
          let (macs, out) := printLoop env maps macs
          if !verbose then { stderr := errOut, stdout := out, err := none }
          else
            match encode macs with
            | Except.error err =>
                { stderr := errOut, stdout := out,
                  err := some ("unable to encode tokens: " ++ err) }
            | Except.ok buf => { stderr := errOut, stdout := out ++ [buf ++ "\n"], err := none }

/-! ## `Destroy` (machine/destroy.go) -/

/-- The fields of `api.Machine` that `Destroy` reads. -/
structure Machine where
  ID : String
  State : String
  LeaseNonce : String
  deriving DecidableEq, Repr

/-- The struct `api.RemoveMachineInput` as `Destroy` fills it. -/
structure RemoveMachineInput where
  ID : String
  Kill : Bool
  deriving DecidableEq, Repr

/-- The collaborators of `Destroy`: the flaps client's `Destroy` call (its
error, `none` for `nil`) and `rewriteMachineNotFoundErrors`. -/
structure DestroyEnv where
  flapsDestroy : RemoveMachineInput → String → Option String
  rewriteMachineNotFoundErrors : String → String → Option String

/-- What a call of `Destroy` leaves behind: the text written to `out`, the
calls made to the flaps client, whether the deletion hook ran, and the
returned error. -/
structure DestroyResult where
  out : List String
  remoteCalls : List (RemoveMachineInput × String)
  hookRan : Bool
  err : Option String
  deriving DecidableEq, Repr

/-- The `switch machine.State` of destroy.go lines 114-127: the error of an
early return, or `none` when control leaves the switch. -/
def stateSwitch (machine : Machine) (force : Bool) : Option String :=
  if machine.State = "stopped" then none
  else if machine.State = "destroyed" then
    some ("machine " ++ machine.ID ++ " has already been destroyed")
  else if machine.State = "started" then
    if !force then
      some ("machine " ++ machine.ID ++
        " currently started, either stop first or use --force flag")
    else none
  else
    if !force then
      some ("machine " ++ machine.ID ++ " is in a " ++ machine.State ++
        " state and cannot be destroyed since it is not stopped, either stop first or use --force flag")
    else none

/-- The function `Destroy` (destroy.go lines 103-142). -/
def Destroy (denv : DestroyEnv) (machine : Machine) (force : Bool) : DestroyResult :=
  let input : RemoveMachineInput := { ID := machine.ID, Kill := force }
  match stateSwitch machine force with
  | some err => { out := [], remoteCalls := [], hookRan := false, err := some err }
  | none =>
      let out := ["machine " ++ machine.ID ++ " was found and is currently in " ++
        machine.State ++ " state, attempting to destroy...\n"]
      let calls := [(input, machine.LeaseNonce)]
      match denv.flapsDestroy input machine.LeaseNonce with
      | some err =>
          match denv.rewriteMachineNotFoundErrors err machine.ID with
          | some err2 => { out := out, remoteCalls := calls, hookRan := false, err := some err2 }
          | none =>
              { out := out, remoteCalls := calls, hookRan := false,
                err := some ("could not destroy machine " ++ machine.ID ++ ": " ++ err) }
      | none => { out := out, remoteCalls := calls, hookRan := true, err := none }

/-! ## Theorems about `printActions` -/

theorem everything_eq : everything = 31 := by decide

theorem FULL_eq : FULL = 31 := by decide

theorem land_full_land (m b : Nat) (hb : 31 &&& b = b) : (m &&& 31) &&& b = m &&& b := by
  rw [Nat.land_assoc, hb]

theorem collectActions_land_full (m : Action) :
    collectActions (m &&& 31) = collectActions m := by
  have h1 := land_full_land m 1 (by decide)
  have h2 := land_full_land m 2 (by decide)
  have h4 := land_full_land m 4 (by decide)
  have h8 := land_full_land m 8 (by decide)
  have h16 := land_full_land m 16 (by decide)
  simp only [collectActions, bits, ActionRead, ActionWrite, ActionCreate, ActionDelete,
    ActionControl, List.foldl_cons, List.foldl_nil, h1, h2, h4, h8, h16]

/-- C1: on each of the 32 masks built from the five actions, `printActions`
returns the reference label of the specification. -/
theorem printActions_eq_labelSpec (m : Action) (hm : m ∈ allMasks) :
    printActions m = labelSpec m := by
  revert m
  decide

theorem printActions_eq_labelSpec_witness :
    (ActionRead ||| ActionWrite) ∈ allMasks ∧
      printActions (ActionRead ||| ActionWrite) = labelSpec (ActionRead ||| ActionWrite) ∧
      labelSpec (ActionRead ||| ActionWrite) = "read, write" ∧
      labelSpec FULL = "everything" ∧ labelSpec ActionRead = "read-only" ∧
      labelSpec ActionWrite = "write" ∧ labelSpec ActionDelete = "delete" ∧
      labelSpec 0 = "" ∧
      allMasks.length = 32 ∧ allMasks.Nodup :=
  ⟨by decide, printActions_eq_labelSpec (ActionRead ||| ActionWrite) (by decide),
    by decide, by decide, by decide, by decide, by decide, by decide, by decide, by decide⟩

/-- C10 (as stated, refuted): the mask 33 = Read together with a bit outside
the five actions is labelled "read", while its restriction to the five
actions, Read, is labelled "read-only". -/
theorem printActions_extra_bit_counterexample :
    printActions 33 = "read" ∧ printActions (33 &&& FULL) = "read-only" ∧
      printActions 33 ≠ printActions (33 &&& FULL) := by
  decide

/-- C10 (amended): for every mask value, `printActions m` is the label of
`m AND FULL`, except when `m AND FULL` is Read while `m` itself is not Read
(bits outside the five actions are set), where the label is "read". -/
theorem printActions_land_FULL (m : Action) :
    printActions m =
      if m &&& FULL = ActionRead ∧ m ≠ ActionRead then "read"
      else printActions (m &&& FULL) := by
  have hidem : (m &&& 31) &&& 31 = m &&& 31 := land_full_land m 31 (by decide)
  simp only [printActions, everything_eq, FULL_eq, hidem, collectActions_land_full]
  by_cases hfull : m &&& 31 = 31
  · have hne : ¬ ((31 : Nat) = ActionRead) := by decide
    simp [hfull, hne]
  · by_cases hr : m = ActionRead
    · subst hr
      decide
    · by_cases hl : m &&& 31 = ActionRead
      · have hc : collectActions m = ["read"] := by
          rw [← collectActions_land_full, hl]; decide
        have hne : ¬ (ActionRead = 31) := by decide
        simp [hfull, hr, hl, hc, hne]
      · simp [hfull, hr, hl]

/-! ## The caveat loop -/

theorem tabs_one : tabs 1 = String.mk (List.replicate 1 '\t') := by decide

theorem tabs_two : tabs 2 = String.mk (List.replicate 2 '\t') := by decide

theorem dep_dprint (text : String) (d : Int) (out : List String) :
    dep (dprint text) ⟨d, out⟩ = ⟨d, out ++ [tabs (d + 1) ++ text ++ "\n"]⟩ := by
  simp [dep, dprint]

theorem foldl_dep_dprint (g : Nat × Action → String) (l : List (Nat × Action)) (d : Int)
    (out : List String) :
    l.foldl (fun s e => dep (dprint (g e)) s) ⟨d, out⟩ =
      ⟨d, out ++ l.map (fun e => tabs (d + 1) ++ g e ++ "\n")⟩ := by
  induction l generalizing out with
  | nil => simp
  | cons e l ih => simp [List.foldl_cons, dep_dprint, ih]

theorem caveatSwitch_one (env : Env) (maps : mappings) (c : Caveat) (out : List String) :
    caveatSwitch env maps c ⟨1, out⟩ = ⟨1, out ++ caveatBlock env maps c⟩ := by
  cases c with
  | Organization id mask =>
      simp [caveatSwitch, caveatBlock, ownLine, nestedLines, indentLine, dep, dprint,
        tabs_one, tabs_two]
  | Apps apps =>
      have h := foldl_dep_dprint (appLine maps) (env.rangeOrder apps) 1
        (out ++ [tabs 1 ++ "* Exclusive for the following apps:" ++ "\n"])
      simp only [appLine] at h
      simp only [caveatSwitch, dprint, h]
      simp [caveatBlock, ownLine, nestedLines, indentLine, tabs_one, tabs_two, appLine]
  | Caveat3P loc =>
      by_cases hl : loc = env.authLocation <;>
        simp [caveatSwitch, caveatBlock, ownLine, nestedLines, indentLine, dprint, tabs_one, hl]
  | other typeName fields =>
      simp [caveatSwitch, caveatBlock, ownLine, nestedLines, indentLine, dprint, tabs_one]

theorem dep_caveatSwitch (env : Env) (maps : mappings) (c : Caveat) (out : List String) :
    dep (caveatSwitch env maps c) ⟨0, out⟩ = ⟨0, out ++ caveatBlock env maps c⟩ := by
  simp [dep, caveatSwitch_one]

theorem caveatLoop_eq (env : Env) (maps : mappings) (cs : List Caveat) (out : List String) :
    caveatLoop env maps cs ⟨0, out⟩ = ⟨0, out ++ cs.flatMap (caveatBlock env maps)⟩ := by
  induction cs generalizing out with
  | nil => simp [caveatLoop]
  | cons c cs ih =>
      have h := ih (out ++ caveatBlock env maps c)
      simp only [caveatLoop] at h ⊢
      simp [List.foldl_cons, dep_caveatSwitch, h]

theorem foldl_Add (cs : List Caveat) (m : Macaroon) :
    cs.foldl Macaroon.Add m = { m with Caveats := m.Caveats ++ cs } := by
  induction cs generalizing m with
  | nil => simp
  | cons c cs ih => simp [List.foldl_cons, ih, Macaroon.Add]

theorem printMacaroon_eq (env : Env) (maps : mappings) (m : Macaroon) :
    printMacaroon env maps m =
      { mac := { m with Caveats := m.Caveats ++ syntheticCaveats },
        out := [headerLine m, "Caveats in this token:\n"] ++
          (m.Caveats ++ syntheticCaveats).flatMap (caveatBlock env maps),
        depth := 0,
        err := none } := by
  simp only [printMacaroon, foldl_Add, caveatLoop_eq, headerLine]

/-! ## `lookup` -/

theorem get?_eq_none_iff (mp : NameTable) (k : Int) : mp.get? k = none ↔ k ∉ mp.keys := by
  induction mp with
  | nil => simp [NameTable.get?, NameTable.keys]
  | cons e mp ih =>
      simp only [NameTable.get?, NameTable.keys] at ih ⊢
      by_cases hk : e.1 = k
      · simp [List.find?_cons, hk]
      · have hk2 : ¬ k = e.1 := fun h => hk h.symm
        simpa [List.find?_cons, hk, hk2] using ih

theorem get?_mem (mp : NameTable) (k : Int) (v : String) (h : mp.get? k = some v) :
    (k, v) ∈ mp := by
  induction mp with
  | nil => simp [NameTable.get?] at h
  | cons e mp ih =>
      simp only [NameTable.get?] at ih h
      by_cases hk : e.1 = k
      · simp [List.find?_cons, hk] at h
        have : e = (k, v) := by
          cases e
          simp_all
        simp [this]
      · simp [List.find?_cons, hk] at h
        have h2 := ih (by simpa using h)
        exact List.mem_cons_of_mem _ h2

/-- C2 (as stated, refuted): the identifier 2^64 - 1 is not a key of the table
whose only key is -1, yet `lookup` returns that table's name instead of the
decimal form of the identifier. -/
theorem lookup_wraparound_counterexample :
    (18446744073709551615 : Int) ∉ NameTable.keys [(-1, "acme")] ∧
      lookup 18446744073709551615 [(-1, "acme")] = "acme" ∧
      sprintfD 18446744073709551615 = "18446744073709551615" ∧
      lookup 18446744073709551615 [(-1, "acme")] ≠ sprintfD 18446744073709551615 := by
  decide

/-- C2 (amended): for every identifier and every name table, `lookup` returns
the name stored under `int64(id)` when that is a key of the table, and the
decimal form of the identifier otherwise; `int64(id)` is the identifier itself
below 2^63 and the identifier minus 2^64 from 2^63 up to 2^64. -/
theorem lookup_total (x : Nat) (mp : NameTable) :
    (toInt64 x ∈ mp.keys → ∃ v, (toInt64 x, v) ∈ mp ∧ mp.get? (toInt64 x) = some v ∧
        lookup x mp = v) ∧
      (toInt64 x ∉ mp.keys → lookup x mp = sprintfD x) ∧
      (x < 2 ^ 63 → toInt64 x = (x : Int)) ∧
      (2 ^ 63 ≤ x → x < 2 ^ 64 → toInt64 x = (x : Int) - 2 ^ 64) := by
  refine ⟨?_, ?_, ?_, ?_⟩
  · intro hk
    cases hg : mp.get? (toInt64 x) with
    | none => exact absurd hk ((get?_eq_none_iff mp _).1 hg)
    | some v => exact ⟨v, get?_mem mp _ v hg, rfl, by simp [lookup, hg]⟩
  · intro hk
    have hg := (get?_eq_none_iff mp (toInt64 x)).2 hk
    simp [lookup, hg]
  · intro hx
    have h1 : x % 2 ^ 64 = x := Nat.mod_eq_of_lt (by omega)
    unfold toInt64
    rw [h1, if_pos hx]
  · intro hx hx2
    have h1 : x % 2 ^ 64 = x := Nat.mod_eq_of_lt hx2
    have h2 : ¬ x < 2 ^ 63 := by omega
    unfold toInt64
    rw [h1, if_neg h2]

/-! ## The key identifier of the header -/

theorem hexEncode_length (bs : List Byte) : (hexEncode bs).length = 2 * bs.length := by
  simp only [hexEncode, String.length]
  induction bs with
  | nil => simp
  | cons b bs ih => simp [List.flatMap_cons, ih]; omega

/-- C3 (as stated, refuted): for the ten-byte key identifier "abcdef1234" the
header shows the hexadecimal encoding "656631323334" of its last six bytes,
not the text "ef1234". -/
theorem header_kid_counterexample :
    (printMacaroon ⟨id, ""⟩ ⟨[], []⟩ ⟨"loc", asciiBytes "abcdef1234", []⟩).out.head? =
        some "Token ...656631323334 (from loc)\n" ∧
      (printMacaroon ⟨id, ""⟩ ⟨[], []⟩ ⟨"loc", asciiBytes "abcdef1234", []⟩).out.head? ≠
        some "Token ...ef1234 (from loc)\n" ∧
      truncateKID (asciiBytes "abcdef1234") = asciiBytes "ef1234" ∧
      hexEncode (asciiBytes "abcd") = "61626364" := by
  decide

/-- C3 (amended): the header shows the lowercase hexadecimal encoding, two
digits per byte, of the key identifier's last six bytes when the identifier is
longer than six bytes, and of the whole identifier when its length is at most
six. -/
theorem header_kid (env : Env) (maps : mappings) (m : Macaroon) :
    (printMacaroon env maps m).out.head? =
        some ("Token ..." ++ hexEncode (truncateKID m.KID) ++ " (from " ++ m.Location ++ ")\n") ∧
      (6 < m.KID.length →
        (truncateKID m.KID).length = 6 ∧ truncateKID m.KID <:+ m.KID ∧
          (hexEncode (truncateKID m.KID)).length = 12) ∧
      (m.KID.length ≤ 6 → truncateKID m.KID = m.KID) := by
  refine ⟨?_, ?_, ?_⟩
  · simp [printMacaroon_eq, headerLine]
  · intro h
    have ht : truncateKID m.KID = m.KID.drop (m.KID.length - 6) := by simp [truncateKID, h]
    have hl : (truncateKID m.KID).length = 6 := by rw [ht, List.length_drop]; omega
    refine ⟨hl, ?_, ?_⟩
    · rw [ht]; exact List.drop_suffix _ _
    · rw [hexEncode_length, hl]
  · intro h
    have h2 : ¬ m.KID.length > 6 := by omega
    simp [truncateKID, h2]

/-! ## Rendering of caveats -/

theorem appLine_indent (maps : mappings) (e : Nat × Action) :
    indentLine 2 (appLine maps e) =
      "\t\tFor app '" ++ lookup e.1 maps.apps ++ "', allowed actions: " ++
        printActions e.2 ++ "\n" := by
  have h : String.mk (List.replicate 2 '\t') ++ "For app '" = "\t\tFor app '" := by decide
  simp only [indentLine, appLine, String.append_assoc]
  rw [← String.append_assoc, h]

/-- C4 (as stated, refuted): when `range` enumerates the resource set
9091, 5392 in that order, the line of app 9091 is printed before the line of
app 5392, and a second rendering of the same caveat under another enumeration
order prints a different text. -/
theorem apps_order_counterexample :
    ((printMacaroon ⟨id, ""⟩ ⟨[], []⟩
        ⟨"loc", [], [Caveat.Apps [(9091, ActionRead), (5392, ActionWrite)]]⟩).out.drop 2).take 3 =
        ["\t* Exclusive for the following apps:\n",
         "\t\tFor app '9091', allowed actions: read-only\n",
         "\t\tFor app '5392', allowed actions: write\n"] ∧
      (printMacaroon ⟨List.reverse, ""⟩ ⟨[], []⟩
        ⟨"loc", [], [Caveat.Apps [(9091, ActionRead), (5392, ActionWrite)]]⟩).out ≠
      (printMacaroon ⟨id, ""⟩ ⟨[], []⟩
        ⟨"loc", [], [Caveat.Apps [(9091, ActionRead), (5392, ActionWrite)]]⟩).out := by
  decide

/-- C4 (amended): for every Apps caveat of a token, `printMacaroon` prints,
after the blocks of the caveats before it, the line
"* Exclusive for the following apps:" at depth one followed by exactly one
"For app '<name>', allowed actions: <label>" line at depth two per entry of
the resource set, in the order in which `range` enumerates the entries. -/
theorem apps_block (env : Env) (maps : mappings) (m : Macaroon) (pre post : List Caveat)
    (apps : List (Nat × Action)) (hm : m.Caveats = pre ++ Caveat.Apps apps :: post)
    (hperm : (env.rangeOrder apps).Perm apps) :
    (printMacaroon env maps m).out =
        [headerLine m, "Caveats in this token:\n"] ++ pre.flatMap (caveatBlock env maps) ++
          ("\t* Exclusive for the following apps:\n" ::
            (env.rangeOrder apps).map (fun e =>
              "\t\tFor app '" ++ lookup e.1 maps.apps ++ "', allowed actions: " ++
                printActions e.2 ++ "\n")) ++
          (post ++ syntheticCaveats).flatMap (caveatBlock env maps) ∧
      ((env.rangeOrder apps).map (fun e =>
          "\t\tFor app '" ++ lookup e.1 maps.apps ++ "', allowed actions: " ++
            printActions e.2 ++ "\n")).Perm
        (apps.map (fun e =>
          "\t\tFor app '" ++ lookup e.1 maps.apps ++ "', allowed actions: " ++
            printActions e.2 ++ "\n")) ∧
      ((env.rangeOrder apps).map (fun e =>
          "\t\tFor app '" ++ lookup e.1 maps.apps ++ "', allowed actions: " ++
            printActions e.2 ++ "\n")).length = apps.length := by
  refine ⟨?_, hperm.map _, ?_⟩
  · have hb : caveatBlock env maps (Caveat.Apps apps) =
        "\t* Exclusive for the following apps:\n" ::
          (env.rangeOrder apps).map (fun e =>
            "\t\tFor app '" ++ lookup e.1 maps.apps ++ "', allowed actions: " ++
              printActions e.2 ++ "\n") := by
      have h1 : indentLine 1 "* Exclusive for the following apps:" =
          "\t* Exclusive for the following apps:\n" := by decide
      simp only [caveatBlock, ownLine, nestedLines, Option.toList, List.map_cons, List.map_nil,
        List.map_map, h1, List.singleton_append, List.cons.injEq, true_and]
      apply List.map_congr_left
      intro e _
      exact appLine_indent maps e
    rw [printMacaroon_eq, hm]
    simp only [List.append_assoc, List.flatMap_append, List.flatMap_cons, hb,
      List.cons_append, List.nil_append]
  · rw [List.length_map]
    exact hperm.length_eq

theorem apps_block_witness :
    (⟨"loc", [], [Caveat.Apps [(9091, ActionRead), (5392, ActionWrite)]]⟩ : Macaroon).Caveats =
        [] ++ Caveat.Apps [(9091, ActionRead), (5392, ActionWrite)] :: [] ∧
      (List.reverse [(9091, ActionRead), (5392, ActionWrite)]).Perm
        [(9091, ActionRead), (5392, ActionWrite)] ∧
      (printMacaroon ⟨List.reverse, ""⟩ ⟨[], [(5392, "web")]⟩
        ⟨"loc", [], [Caveat.Apps [(9091, ActionRead), (5392, ActionWrite)]]⟩).out =
        [headerLine ⟨"loc", [], [Caveat.Apps [(9091, ActionRead), (5392, ActionWrite)]]⟩,
          "Caveats in this token:\n"] ++
          ([] : List Caveat).flatMap (caveatBlock ⟨List.reverse, ""⟩ ⟨[], [(5392, "web")]⟩) ++
          ("\t* Exclusive for the following apps:\n" ::
            (List.reverse [(9091, ActionRead), (5392, ActionWrite)]).map (fun e =>
              "\t\tFor app '" ++ lookup e.1 [(5392, "web")] ++ "', allowed actions: " ++
                printActions e.2 ++ "\n")) ++
          (([] : List Caveat) ++ syntheticCaveats).flatMap
            (caveatBlock ⟨List.reverse, ""⟩ ⟨[], [(5392, "web")]⟩) :=
  ⟨rfl, List.reverse_perm _,
    (apps_block ⟨List.reverse, ""⟩ ⟨[], [(5392, "web")]⟩
      ⟨"loc", [], [Caveat.Apps [(9091, ActionRead), (5392, ActionWrite)]]⟩ [] []
      [(9091, ActionRead), (5392, ActionWrite)] rfl (List.reverse_perm _)).1⟩

/-- C7 (the code at the failing input): for a token decoded with no caveat,
the four `Add` calls of debug.go lines 149-158 leave four caveats on the token
when `printMacaroon` returns, and under "Caveats in this token:" the report
describes caveats that the decoded token did not carry, the first being
Organization 9709 with mask Read. -/
theorem printMacaroon_mutates_counterexample :
    (printMacaroon ⟨id, ""⟩ ⟨[], []⟩ ⟨"loc", [], []⟩).mac.Caveats ≠
        (⟨"loc", [], []⟩ : Macaroon).Caveats ∧
      (printMacaroon ⟨id, ""⟩ ⟨[], []⟩ ⟨"loc", [], []⟩).mac.Caveats.length = 4 ∧
      (printMacaroon ⟨id, ""⟩ ⟨[], []⟩ ⟨"loc", [], []⟩).out.drop 2 ≠ [] ∧
      ((printMacaroon ⟨id, ""⟩ ⟨[], []⟩ ⟨"loc", [], []⟩).out.drop 2).take 2 =
        ["\t* Exclusively for organization '9709'\n", "\t\tAllowed actions: read-only\n"] := by
  decide

/-- C8: for every token holding a caveat of a kind other than Organization,
Apps and Caveat3P, `printMacaroon` returns nil and the report contains the
depth-one line "cav: <type name> <field dump>" of that caveat, whatever the
type name and the dump are. -/
theorem printMacaroon_other (env : Env) (maps : mappings) (m : Macaroon)
    (typeName fields : String) (hc : Caveat.other typeName fields ∈ m.Caveats) :
    (printMacaroon env maps m).err = none ∧
      ("\tcav: " ++ typeName ++ " " ++ fields ++ "\n") ∈ (printMacaroon env maps m).out := by
  have hb : caveatBlock env maps (Caveat.other typeName fields) =
      ["\tcav: " ++ typeName ++ " " ++ fields ++ "\n"] := by
    have h : String.mk (List.replicate 1 '\t') ++ "cav: " = "\tcav: " := by decide
    simp only [caveatBlock, ownLine, nestedLines, Option.toList, List.map_cons, List.map_nil,
      List.append_nil, indentLine, String.append_assoc]
    rw [← String.append_assoc, h]
  rw [printMacaroon_eq]
  refine ⟨rfl, ?_⟩
  simp only [List.mem_append, List.mem_flatMap]
  exact Or.inr ⟨_, Or.inl hc, by rw [hb]; exact List.mem_singleton.2 rfl⟩

theorem printMacaroon_other_witness :
    Caveat.other "*flyio.FeatureSet" "&\x7bFeatures:map[]\x7d" ∈
        (⟨"loc", [], [Caveat.other "*flyio.FeatureSet" "&\x7bFeatures:map[]\x7d"]⟩ :
          Macaroon).Caveats ∧
      (printMacaroon ⟨id, ""⟩ ⟨[], []⟩
        ⟨"loc", [], [Caveat.other "*flyio.FeatureSet" "&\x7bFeatures:map[]\x7d"]⟩).err = none ∧
      ("\tcav: " ++ "*flyio.FeatureSet" ++ " " ++ "&\x7bFeatures:map[]\x7d" ++ "\n") ∈
        (printMacaroon ⟨id, ""⟩ ⟨[], []⟩
          ⟨"loc", [], [Caveat.other "*flyio.FeatureSet" "&\x7bFeatures:map[]\x7d"]⟩).out :=
  ⟨by decide,
    printMacaroon_other ⟨id, ""⟩ ⟨[], []⟩
      ⟨"loc", [], [Caveat.other "*flyio.FeatureSet" "&\x7bFeatures:map[]\x7d"]⟩
      "*flyio.FeatureSet" "&\x7bFeatures:map[]\x7d" (by decide)⟩

/-! ## Indentation -/

theorem firstChar_append (a b : String) (c : Char) (h : firstChar a = some c) :
    firstChar (a ++ b) = some c := by
  simp only [firstChar, String.data_append] at h ⊢
  cases ha : a.data with
  | nil => simp [ha] at h
  | cons x xs => simpa [ha] using h

theorem firstChar_text (env : Env) (maps : mappings) (c : Caveat) (t : String)
    (h : ownLine env maps c = some t ∨ t ∈ nestedLines env maps c) :
    firstChar t ≠ some '\t' := by
  have key : ∀ (a b : String) (x : Char), firstChar a = some x → x ≠ '\t' →
      firstChar (a ++ b) ≠ some '\t' := by
    intro a b x hx hne heq
    rw [firstChar_append a b x hx] at heq
    exact hne (Option.some.inj heq)
  rcases h with h | h
  · cases c with
    | Organization id mask =>
        simp only [ownLine, Option.some.injEq] at h
        subst h
        rw [String.append_assoc]
        exact key _ _ '*' (by decide) (by decide)
    | Apps apps =>
        simp only [ownLine, Option.some.injEq] at h
        subst h
        decide
    | Caveat3P loc =>
        by_cases hl : loc = env.authLocation
        · simp only [ownLine, hl, if_true, Option.some.injEq] at h
          subst h
          decide
        · simp [ownLine, hl] at h
    | other typeName fields =>
        simp only [ownLine, Option.some.injEq] at h
        subst h
        simp only [String.append_assoc]
        exact key _ _ 'c' (by decide) (by decide)
  · cases c with
    | Organization id mask =>
        simp only [nestedLines, List.mem_singleton] at h
        subst h
        exact key _ _ 'A' (by decide) (by decide)
    | Apps apps =>
        simp only [nestedLines, List.mem_map] at h
        obtain ⟨e, _, he⟩ := h
        subst he
        simp only [appLine, String.append_assoc]
        exact key _ _ 'F' (by decide) (by decide)
    | Caveat3P loc => simp [nestedLines] at h
    | other typeName fields => simp [nestedLines] at h

/-- C9: one pass of the caveat loop entered at depth zero leaves the depth at
zero and appends exactly the caveat's block, whatever was printed before; the
whole loop and `printMacaroon` therefore end at depth zero; in a block the
caveat's own line is prefixed by one tab and each nested line by two, and no
line's text starts with a tab, so the number of leading tabs is the depth. -/
theorem indentation_by_depth (env : Env) (maps : mappings) (m : Macaroon) :
    (∀ (c : Caveat) (out : List String),
        dep (caveatSwitch env maps c) ⟨0, out⟩ =
          ⟨0, out ++ ((ownLine env maps c).toList.map (indentLine 1) ++
            (nestedLines env maps c).map (indentLine 2))⟩) ∧
      (∀ (cs : List Caveat) (out : List String),
        (caveatLoop env maps cs ⟨0, out⟩).depth = 0) ∧
      (printMacaroon env maps m).depth = 0 ∧
      (printMacaroon env maps m).out =
        [headerLine m, "Caveats in this token:\n"] ++
          (m.Caveats ++ syntheticCaveats).flatMap (fun c =>
            (ownLine env maps c).toList.map (indentLine 1) ++
              (nestedLines env maps c).map (indentLine 2)) ∧
      (∀ (c : Caveat) (t : String),
        ownLine env maps c = some t ∨ t ∈ nestedLines env maps c →
          firstChar t ≠ some '\t') ∧
      (∀ t : String, indentLine 1 t = "\t" ++ t ++ "\n") ∧
      (∀ t : String, indentLine 2 t = "\t\t" ++ t ++ "\n") := by
  refine ⟨?_, ?_, ?_, ?_, firstChar_text env maps, ?_, ?_⟩
  · intro c out
    exact dep_caveatSwitch env maps c out
  · intro cs out
    rw [caveatLoop_eq]
  · rw [printMacaroon_eq]
  · rw [printMacaroon_eq]
    rfl
  · intro t
    rfl
  · intro t
    rfl

/-! ## `runDebug` -/

theorem decodeLoop_cons_ok {Tok : Type} (decode : Tok → Except String Macaroon) (t : Tok)
    (rest : List Tok) (a : Macaroon) (h : decode t = Except.ok a) (i : Nat)
    (macs : List Macaroon) (errOut : List String) :
    decodeLoop decode i (t :: rest) (macs, errOut) =
      decodeLoop decode (i + 1) rest (macs ++ [a], errOut) := by
  simp [decodeLoop, h]

theorem decodeLoop_cons_error {Tok : Type} (decode : Tok → Except String Macaroon) (t : Tok)
    (rest : List Tok) (e : String) (h : decode t = Except.error e) (i : Nat)
    (macs : List Macaroon) (errOut : List String) :
    decodeLoop decode i (t :: rest) (macs, errOut) =
      decodeLoop decode (i + 1) rest
        (macs, errOut ++
          ["unable to decode token at position " ++ Nat.repr i ++ ": " ++ e ++ "\n"]) := by
  simp [decodeLoop, h]

theorem decodeLoop_ok {Tok : Type} (decode : Tok → Except String Macaroon) (ts rest : List Tok)
    (ms : List Macaroon) (h : ts.map decode = ms.map Except.ok) (i : Nat)
    (macs : List Macaroon) (errOut : List String) :
    decodeLoop decode i (ts ++ rest) (macs, errOut) =
      decodeLoop decode (i + ts.length) rest (macs ++ ms, errOut) := by
  induction ts generalizing ms i macs with
  | nil =>
      cases ms with
      | nil => simp
      | cons a ms => simp at h
  | cons t ts ih =>
      cases ms with
      | nil => simp at h
      | cons a ms =>
          simp only [List.map_cons, List.cons.injEq] at h
          have h2 := ih ms h.2 (i + 1) (macs ++ [a])
          have hi : i + 1 + ts.length = i + (t :: ts).length := by
            simp only [List.length_cons]
            omega
          rw [List.cons_append, decodeLoop_cons_ok decode t _ a h.1, h2, hi,
            List.append_assoc, List.singleton_append]

theorem printLoop_eq (env : Env) (maps : mappings) (macs : List Macaroon) :
    printLoop env maps macs =
      (macs.map (fun mac => (printMacaroon env maps mac).mac),
        macs.flatMap (fun mac => (printMacaroon env maps mac).out)) := by
  have gen : ∀ (l : List Macaroon) (acc : List Macaroon × List String),
      l.foldl (fun acc mac =>
          let r := printMacaroon env maps mac
          (acc.1 ++ [r.mac], acc.2 ++ r.out)) acc =
        (acc.1 ++ l.map (fun mac => (printMacaroon env maps mac).mac),
          acc.2 ++ l.flatMap (fun mac => (printMacaroon env maps mac).out)) := by
    intro l
    induction l with
    | nil => intro acc; simp
    | cons a l ih => intro acc; simp [List.foldl_cons, ih]
  simpa [printLoop] using gen macs ([], [])

theorem runDebug_split {Tok : Type} (env : Env) (decode : Tok → Except String Macaroon)
    (maps : mappings) (verbose : Bool) (encode : List Macaroon → Except String String)
    (pre post : List Tok) (tok : Tok) (mpre mpost : List Macaroon) (e : String)
    (hpre : pre.map decode = mpre.map Except.ok)
    (hpost : post.map decode = mpost.map Except.ok)
    (htok : decode tok = Except.error e) :
    (runDebug env (Except.ok (pre ++ tok :: post)) decode (Except.ok maps) verbose encode).stderr =
        ["unable to decode token at position " ++ Nat.repr pre.length ++ ": " ++ e ++ "\n"] ∧
      (mpre ++ mpost).length + 1 = (pre ++ tok :: post).length ∧
      ∃ rest : List String,
        (runDebug env (Except.ok (pre ++ tok :: post)) decode (Except.ok maps) verbose
            encode).stdout =
          (mpre ++ mpost).flatMap (fun mac => (printMacaroon env maps mac).out) ++ rest ∧
        (verbose = false → rest = []) ∧ rest.length ≤ 1 := by
  have hl1 : mpre.length = pre.length := by
    have := congrArg List.length hpre
    simpa using this.symm
  have hl2 : mpost.length = post.length := by
    have := congrArg List.length hpost
    simpa using this.symm
  have hdec : decodeLoop decode 0 (pre ++ tok :: post) ([], []) =
      (mpre ++ mpost,
        ["unable to decode token at position " ++ Nat.repr pre.length ++ ": " ++ e ++ "\n"]) := by
    rw [decodeLoop_ok decode pre (tok :: post) mpre hpre,
      decodeLoop_cons_error decode tok post e htok]
    simp only [List.nil_append, Nat.zero_add]
    have h3 := decodeLoop_ok decode post [] mpost hpost (pre.length + 1) mpre
      ["unable to decode token at position " ++ Nat.repr pre.length ++ ": " ++ e ++ "\n"]
    simp only [List.append_nil] at h3
    rw [h3]
    simp [decodeLoop]
  refine ⟨?_, ?_, ?_⟩
  · simp only [runDebug, hdec, printLoop_eq]
    cases verbose with
    | false => simp
    | true =>
        simp only [Bool.not_true]
        cases encode (List.map (fun mac => (printMacaroon env maps mac).mac) (mpre ++ mpost)) <;>
          simp
  · simp [hl1, hl2]
    omega
  · simp only [runDebug, hdec, printLoop_eq]
    cases verbose with
    | false => exact ⟨[], by simp⟩
    | true =>
        simp only [Bool.not_true]
        cases hen : encode (List.map (fun mac => (printMacaroon env maps mac).mac)
            (mpre ++ mpost)) with
        | error err => exact ⟨[], by simp⟩
        | ok buf => exact ⟨[buf ++ "\n"], by simp⟩

theorem exists_decoded {Tok : Type} (decode : Tok → Except String Macaroon) (l : List Tok)
    (h : ∀ t ∈ l, ∃ m, decode t = Except.ok m) :
    ∃ ms : List Macaroon, l.map decode = ms.map Except.ok := by
  induction l with
  | nil => exact ⟨[], rfl⟩
  | cons t l ih =>
      obtain ⟨m, hm⟩ := h t (List.mem_cons_self _ _)
      obtain ⟨ms, hms⟩ := ih (fun x hx => h x (List.mem_cons_of_mem _ hx))
      exact ⟨m :: ms, by simp [hm, hms]⟩

/-- C5: for every input sequence `toks` in which the token at position `k`
fails to decode and every token at another position decodes, and with the
name tables retrieved, `runDebug` writes exactly one decode failure to
standard error, carrying the index `k`, and standard output starts with the
blocks of the other tokens, one block each (one fewer than the input has
tokens), in input order, those after position `k` included; without the
verbose flag nothing follows them, with it at most the encoded array. -/
theorem runDebug_one_failure {Tok : Type} (env : Env) (decode : Tok → Except String Macaroon)
    (maps : mappings) (verbose : Bool) (encode : List Macaroon → Except String String)
    (toks : List Tok) (k : Nat) (e : String) (hk : k < toks.length)
    (hfail : decode toks[k] = Except.error e)
    (hok : ∀ (i : Nat) (hi : i < toks.length), i ≠ k → ∃ m, decode toks[i] = Except.ok m) :
    (runDebug env (Except.ok toks) decode (Except.ok maps) verbose encode).stderr =
        ["unable to decode token at position " ++ Nat.repr k ++ ": " ++ e ++ "\n"] ∧
      ∃ (ms : List Macaroon) (rest : List String),
        (toks.eraseIdx k).map decode = ms.map Except.ok ∧
        ms.length + 1 = toks.length ∧
        (runDebug env (Except.ok toks) decode (Except.ok maps) verbose encode).stdout =
          ms.flatMap (fun mac => (printMacaroon env maps mac).out) ++ rest ∧
        (verbose = false → rest = []) ∧ rest.length ≤ 1 := by
  have hsplit : toks = toks.take k ++ toks[k] :: toks.drop (k + 1) := by
    rw [← List.drop_eq_getElem_cons hk, List.take_append_drop]
  have hlen : (toks.take k).length = k := by
    rw [List.length_take]
    omega
  obtain ⟨mpre, hpre⟩ := exists_decoded decode (toks.take k) (by
    intro t ht
    obtain ⟨i, hi, rfl⟩ := List.mem_take_iff_getElem.1 ht
    exact hok i (by omega) (by omega))
  obtain ⟨mpost, hpost⟩ := exists_decoded decode (toks.drop (k + 1)) (by
    intro t ht
    obtain ⟨i, hi, rfl⟩ := List.mem_drop_iff_getElem.1 ht
    exact hok (k + 1 + i) (by omega) (by omega))
  have h := runDebug_split env decode maps verbose encode (toks.take k) (toks.drop (k + 1))
    toks[k] mpre mpost e hpre hpost hfail
  rw [← hsplit, hlen] at h
  obtain ⟨h1, h2, rest, h3, h4, h5⟩ := h
  refine ⟨h1, mpre ++ mpost, rest, ?_, h2, h3, h4, h5⟩
  rw [List.eraseIdx_eq_take_drop_succ, List.map_append, List.map_append, hpre, hpost]

theorem runDebug_one_failure_witness :
    decode4 (["a", "bad", "b", "c"])[1] = Except.error "EOF" ∧
      (runDebug ⟨id, ""⟩ (Except.ok ["a", "bad", "b", "c"]) decode4
        (Except.ok ⟨[], []⟩) false (fun _ => Except.ok "[]")).stderr =
        ["unable to decode token at position " ++ Nat.repr 1 ++ ": " ++ "EOF" ++ "\n"] ∧
      ∃ (ms : List Macaroon) (rest : List String),
        (["a", "bad", "b", "c"].eraseIdx 1).map decode4 = ms.map Except.ok ∧
        ms.length + 1 = ["a", "bad", "b", "c"].length ∧
        (runDebug ⟨id, ""⟩ (Except.ok ["a", "bad", "b", "c"]) decode4
            (Except.ok ⟨[], []⟩) false (fun _ => Except.ok "[]")).stdout =
          ms.flatMap (fun mac => (printMacaroon ⟨id, ""⟩ ⟨[], []⟩ mac).out) ++ rest ∧
        (false = false → rest = []) ∧ rest.length ≤ 1 :=
  ⟨rfl,
    runDebug_one_failure ⟨id, ""⟩ decode4 ⟨[], []⟩ false (fun _ => Except.ok "[]")
      ["a", "bad", "b", "c"] 1 "EOF" (by decide) rfl (by
        intro i hi hne
        have hi4 : i < 4 := hi
        interval_cases i
        · exact ⟨bareToken "a", rfl⟩
        · exact absurd rfl hne
        · exact ⟨bareToken "b", rfl⟩
        · exact ⟨bareToken "c", rfl⟩)⟩

/-! ## `Destroy` -/

theorem Destroy_remoteCalls (denv : DestroyEnv) (machine : Machine) (force : Bool) :
    (Destroy denv machine force).remoteCalls =
      if stateSwitch machine force = none then [(⟨machine.ID, force⟩, machine.LeaseNonce)]
      else [] := by
  unfold Destroy
  cases hs : stateSwitch machine force with
  | some e => simp
  | none =>
      simp only [if_true]
      split
      · split <;> rfl
      · rfl

theorem Destroy_err (denv : DestroyEnv) (machine : Machine) (force : Bool) (e : String)
    (hs : stateSwitch machine force = some e) : (Destroy denv machine force).err = some e := by
  unfold Destroy
  simp [hs]

/-- C6 (the code at the failing input): with the force flag set, a machine in
state "destroyed" is rejected with the error "machine m1 has already been
destroyed" and no remote call is made, although the state is not "stopped" and
force is set. -/
theorem Destroy_destroyed_counterexample :
    (Destroy ⟨fun _ _ => none, fun _ _ => none⟩ ⟨"m1", "destroyed", ""⟩ true).remoteCalls = [] ∧
      (Destroy ⟨fun _ _ => none, fun _ _ => none⟩ ⟨"m1", "destroyed", ""⟩ true).err =
        some "machine m1 has already been destroyed" ∧
      ¬ ((Destroy ⟨fun _ _ => none, fun _ _ => none⟩ ⟨"m1", "destroyed", ""⟩ true).remoteCalls ≠ []
          ↔ ((⟨"m1", "destroyed", ""⟩ : Machine).State = "stopped" ∨ true = true)) := by
  decide

/-- The remote destroy call is made exactly when the machine's state is
"stopped", or force is set and the state is not "destroyed"; it is then made
once, with the machine's ID, `Kill` equal to force, and the lease nonce.
Without force a machine that is not stopped is rejected with an error and no
remote call; a machine in state "destroyed" is rejected whatever force is. -/
theorem Destroy_gate (denv : DestroyEnv) (machine : Machine) (force : Bool) :
    ((Destroy denv machine force).remoteCalls ≠ [] ↔
        (machine.State = "stopped" ∨ (force = true ∧ machine.State ≠ "destroyed"))) ∧
      ((Destroy denv machine force).remoteCalls ≠ [] →
        (Destroy denv machine force).remoteCalls =
          [(⟨machine.ID, force⟩, machine.LeaseNonce)]) ∧
      (force = false → machine.State ≠ "stopped" →
        (Destroy denv machine force).err.isSome = true ∧
          (Destroy denv machine force).remoteCalls = []) ∧
      (machine.State = "destroyed" →
        (Destroy denv machine force).err =
            some ("machine " ++ machine.ID ++ " has already been destroyed") ∧
          (Destroy denv machine force).remoteCalls = []) := by
  rw [Destroy_remoteCalls]
  by_cases h1 : machine.State = "stopped"
  · have hs : stateSwitch machine force = none := by simp [stateSwitch, h1]
    have hd : ¬ machine.State = "destroyed" := by rw [h1]; decide
    simp [hs, h1, hd]
  · by_cases h2 : machine.State = "destroyed"
    · have hs : stateSwitch machine force =
          some ("machine " ++ machine.ID ++ " has already been destroyed") := by
        simp [stateSwitch, h1, h2]
      have he := Destroy_err denv machine force _ hs
      simp [hs, h1, h2, he]
    · cases force with
      | false =>
          have hs : ∃ e, stateSwitch machine false = some e := by
            by_cases h3 : machine.State = "started" <;> simp [stateSwitch, h1, h2, h3]
          obtain ⟨e, hs⟩ := hs
          have he := Destroy_err denv machine false _ hs
          simp [hs, h1, h2, he]
      | true =>
          have hs : stateSwitch machine true = none := by
            by_cases h3 : machine.State = "started" <;> simp [stateSwitch, h1, h2, h3]
          simp [hs, h1, h2]

end Flyctl
